import Mathlib

/-!
Verification of the cosmology wrapper module `mcfit/cosmology.py`.

The module defines thin wrappers (`P2xi`, `xi2P`, `TophatVar`, `GaussVar`,
`C2w`, `w2C`) around two generic integral-transform base engines (`mcfit`
and `Hankel`) and a Mellin kernel selection module.  The base engines and
the kernel module are external collaborators, not part of this file's
source; following the specification's interface contract (§6) they are
modelled abstractly below.  The wrappers' own constructor and call logic
is embedded from the source.
-/

namespace McfitCosmo

/-! ## Module-load model

`cosmology.py` executes, at import time, three `import` statements followed
by six `class` statements.  Evaluating a `class C(B)` statement looks the
base name `B` up in the module namespace built so far; an unbound base name
raises `NameError`.  We model exactly this name-resolution process. -/

/-- Identifiers occurring at top level of `cosmology.py`: the three names
bound by its import statements (`mcfit`, `kernels`, `pi`), the six class
names it defines, and the base-class name `Hankel` referenced by `C2w` and
`w2C`. -/
inductive PyName where
  | mcfit
  | kernels
  | pi
  | P2xi
  | xi2P
  | TophatVar
  | GaussVar
  | C2w
  | w2C
  | Hankel
  deriving DecidableEq

/-- A top-level statement of the module, as relevant to load-time name
resolution: an import binding one name, or a class definition referencing a
base name and binding the class name. -/
inductive Stmt where
  | importName (s : PyName)
  | classDef (cname : PyName) (base : PyName)
  deriving DecidableEq

/-- The top-level statements of `cosmology.py` in source order:
`from mcfit.mcfit import mcfit`, `from mcfit import kernels`,
`from numpy import pi`, then the six class definitions with their written
base classes (`P2xi(mcfit)`, `xi2P(mcfit)`, `TophatVar(mcfit)`,
`GaussVar(mcfit)`, `C2w(Hankel)`, `w2C(Hankel)`). -/
def cosmologyStmts : List Stmt :=
  [Stmt.importName PyName.mcfit,
   Stmt.importName PyName.kernels,
   Stmt.importName PyName.pi,
   Stmt.classDef PyName.P2xi PyName.mcfit,
   Stmt.classDef PyName.xi2P PyName.mcfit,
   Stmt.classDef PyName.TophatVar PyName.mcfit,
   Stmt.classDef PyName.GaussVar PyName.mcfit,
   Stmt.classDef PyName.C2w PyName.Hankel,
   Stmt.classDef PyName.w2C PyName.Hankel]

/-- Executing the top-level statements of a module against an environment of
bound names: an import binds its name; a class statement first requires its
base name to be bound (otherwise the load stops with the unbound name, the
`NameError`) and then binds the class name. -/
def loadModule : List Stmt → List PyName → Except PyName (List PyName)
  | [], env => Except.ok env
  | Stmt.importName s :: rest, env => loadModule rest (s :: env)
  | Stmt.classDef c b :: rest, env =>
      if b ∈ env then loadModule rest (c :: env) else Except.error b

/-! ## Kernels and phase factors -/

/-- The Mellin kernel selected from the external `kernels` module, recorded
with the constructor and arguments used: `Mellin_SphericalBesselJ(l, deriv)`,
`Mellin_TophatSq(p, deriv)` or `Mellin_GaussSq(deriv)`. -/
inductive Kernel where
  | mellinSphericalBesselJ (l : ℕ) (deriv : ℕ)
  | mellinTophatSq (p : ℕ) (deriv : ℕ)
  | mellinGaussSq (deriv : ℕ)
  deriving DecidableEq

/-- The phase factor computed by `P2xi` (for `n is None`) and `xi2P`:
`(-1 if l & 2 else 1) * (1j if l & 1 else 1)`, with Python truthiness of
`l & 2` and `l & 1` rendered as the bitwise conjunctions being nonzero. -/
def phaseOf (l : ℕ) : ℂ :=
  (if l &&& 2 ≠ 0 then -1 else 1) * (if l &&& 1 ≠ 0 then Complex.I else 1)

/-- The modulo-4 case table the specification states for the phase factor:
`l mod 4 = 0 ↦ +1`, `1 ↦ +i`, `2 ↦ −1`, `3 ↦ −i`.  Written from the
specification's words, to be compared with `phaseOf` from the source. -/
def phaseTableSpec (l : ℕ) : ℂ :=
  if l % 4 = 0 then 1
  else if l % 4 = 1 then Complex.I
  else if l % 4 = 2 then -1
  else -Complex.I

/-- The constant `(2*pi)**1.5` of the source. -/
noncomputable def twoPi15 : ℝ := (2 * Real.pi) ^ (1.5 : ℝ)

/-! ## The 3D base engine `mcfit` (spec-modelled) and its wrappers -/

/-- State of a constructed 3D base transform: the grid `x`, the conjugate
grid `y`, the correction factors `prefac` and `postfac`, the chosen kernel,
the tilt, and the passthrough keyword configuration.  Grids are arrays of
reals indexed by `ι`; the correction factors can become complex (the phase
factor is multiplied into `postfac`), so they are arrays of `ℂ`. -/
structure Transform (ι : Type) (Config : Type) where
  x : ι → ℝ
  y : ι → ℝ
  prefac : ι → ℂ
  postfac : ι → ℂ
  kernel : Kernel
  tilt : ℝ
  config : Config

/-- Modelled from the spec: the 3D base engine `mcfit.mcfit` is not part of
this module's source.  Per the specification's interface contract, its
constructor `(grid, kernel, tilt, **config)` yields a transform whose `x`
echoes the grid and whose conjugate grid `y` and initial `prefac`/`postfac`
are algorithmically determined by the engine from the constructor
arguments.  The engine is therefore an arbitrary assignment of those
three. -/
structure McfitEngine (ι : Type) (Config : Type) where
  y0 : (ι → ℝ) → Kernel → ℝ → Config → ι → ℝ
  prefac0 : (ι → ℝ) → Kernel → ℝ → Config → ι → ℂ
  postfac0 : (ι → ℝ) → Kernel → ℝ → Config → ι → ℂ

/-- Modelled from the spec: the base constructor call
`mcfit.__init__(self, x, MK, q, **kwargs)`, producing the base transform
state that the wrappers then adjust. -/
def mcfitInit {ι Config : Type} (E : McfitEngine ι Config) (x : ι → ℝ)
    (MK : Kernel) (q : ℝ) (cfg : Config) : Transform ι Config :=
  { x := x
    y := E.y0 x MK q cfg
    prefac := E.prefac0 x MK q cfg
    postfac := E.postfac0 x MK q cfg
    kernel := MK
    tilt := q
    config := cfg }

/-- A `P2xi` instance: a base transform plus the stored order `l`. -/
structure P2xi (ι : Type) (Config : Type) extends Transform ι Config where
  l : ℕ

/-- `P2xi.__init__(self, k, l=0, n=None, deriv=0, q=1.5, **kwargs)` from the
source: selects `Mellin_SphericalBesselJ(l, deriv)`; if `n is None` the
phase is `phaseOf l` and `n` becomes `0`, otherwise the phase is `1`; calls
the base constructor with tilt `q + n`; then multiplies `prefac` by
`x**(3+n) / (2*pi)**1.5` and `postfac` by the phase. -/
noncomputable def P2xi.init {ι Config : Type} (E : McfitEngine ι Config)
    (k : ι → ℝ) (l : ℕ) (n : Option ℤ) (deriv : ℕ) (q : ℝ) (cfg : Config) :
    P2xi ι Config :=
  let MK := Kernel.mellinSphericalBesselJ l deriv
  let phase : ℂ := match n with
    | none => phaseOf l
    | some _ => 1
  let nv : ℤ := match n with
    | none => 0
    | some m => m
  let base := mcfitInit E k MK (q + nv) cfg
  { toTransform :=
      { base with
        prefac := fun i => base.prefac i * ((base.x i ^ ((3 : ℤ) + nv) / twoPi15 : ℝ) : ℂ)
        postfac := fun i => base.postfac i * phase }
    l := l }

/-- An `xi2P` instance: a base transform plus the stored order `l`. -/
structure xi2P (ι : Type) (Config : Type) extends Transform ι Config where
  l : ℕ

/-- `xi2P.__init__(self, r, l=0, deriv=0, q=1.5, **kwargs)` from the source:
selects `Mellin_SphericalBesselJ(l, deriv)`; calls the base constructor with
tilt `q` unmodified; multiplies `prefac` by `x**3` and `postfac` by
`(2*pi)**1.5 / phase` with the phase computed as in `P2xi`. -/
noncomputable def xi2P.init {ι Config : Type} (E : McfitEngine ι Config)
    (r : ι → ℝ) (l : ℕ) (deriv : ℕ) (q : ℝ) (cfg : Config) : xi2P ι Config :=
  let MK := Kernel.mellinSphericalBesselJ l deriv
  let base := mcfitInit E r MK q cfg
  { toTransform :=
      { base with
        prefac := fun i => base.prefac i * ((base.x i ^ (3 : ℕ) : ℝ) : ℂ)
        postfac := fun i => base.postfac i * (((twoPi15 : ℝ) : ℂ) / phaseOf l) }
    l := l }

/-- `TophatVar.__init__(self, k, deriv=0, q=1.5, **kwargs)` from the source:
selects `Mellin_TophatSq(3, deriv)`; calls the base constructor with tilt
`q`; multiplies `prefac` by `x**3 / (2 * pi**2)`.  No extra attribute is
stored and `postfac` is untouched. -/
noncomputable def TophatVar.init {ι Config : Type} (E : McfitEngine ι Config)
    (k : ι → ℝ) (deriv : ℕ) (q : ℝ) (cfg : Config) : Transform ι Config :=
  let base := mcfitInit E k (Kernel.mellinTophatSq 3 deriv) q cfg
  { base with
    prefac := fun i => base.prefac i * ((base.x i ^ (3 : ℕ) / (2 * Real.pi ^ 2) : ℝ) : ℂ) }

/-- `GaussVar.__init__(self, k, deriv=0, q=1.5, **kwargs)` from the source:
selects `Mellin_GaussSq(deriv)`; calls the base constructor with tilt `q`;
multiplies `prefac` by `x**3 / (2 * pi**2)`. -/
noncomputable def GaussVar.init {ι Config : Type} (E : McfitEngine ι Config)
    (k : ι → ℝ) (deriv : ℕ) (q : ℝ) (cfg : Config) : Transform ι Config :=
  let base := mcfitInit E k (Kernel.mellinGaussSq deriv) q cfg
  { base with
    prefac := fun i => base.prefac i * ((base.x i ^ (3 : ℕ) / (2 * Real.pi ^ 2) : ℝ) : ℂ) }

/-! ## The 2D base engine `Hankel` (spec-modelled) and the angular pair -/

/-- State of a constructed 2D (`Hankel`) base transform: grid `x`, conjugate
grid `y`, correction factors, the order `nu`, derivative order, tilt, and
the passthrough configuration. -/
structure HTransform (ι : Type) (Config : Type) where
  x : ι → ℝ
  y : ι → ℝ
  prefac : ι → ℂ
  postfac : ι → ℂ
  nu : ℤ
  deriv : ℕ
  tilt : ℝ
  config : Config

/-- Modelled from the spec: the 2D base engine `Hankel` is not part of this
module's source.  Per the specification it shares the `prefac`/`postfac`/
`x`/`y` contract of the 3D base but is parameterized by an order `nu`, and
its call operator maps an input array plus call-time configuration to an
`(output grid, output array)` pair. -/
structure HankelEngine (ι : Type) (Config : Type) (CallCfg : Type) where
  y0 : (ι → ℝ) → ℤ → ℕ → ℝ → Config → ι → ℝ
  prefac0 : (ι → ℝ) → ℤ → ℕ → ℝ → Config → ι → ℂ
  postfac0 : (ι → ℝ) → ℤ → ℕ → ℝ → Config → ι → ℂ
  call : HTransform ι Config → (ι → ℂ) → CallCfg → (ι → ℝ) × (ι → ℂ)

/-- Modelled from the spec: the base constructor call
`Hankel.__init__(self, x, nu, deriv, q, **kwargs)`. -/
def hankelInit {ι Config CallCfg : Type} (E : HankelEngine ι Config CallCfg)
    (x : ι → ℝ) (nu : ℤ) (deriv : ℕ) (q : ℝ) (cfg : Config) : HTransform ι Config :=
  { x := x
    y := E.y0 x nu deriv q cfg
    prefac := E.prefac0 x nu deriv q cfg
    postfac := E.postfac0 x nu deriv q cfg
    nu := nu
    deriv := deriv
    tilt := q
    config := cfg }

/-- A `C2w` instance: a 2D base transform plus stored `ell` and `theta`. -/
structure C2w (ι : Type) (Config : Type) extends HTransform ι Config where
  ell : ι → ℝ
  theta : ι → ℝ

/-- `C2w.__init__(self, ell, nu=0, **kwargs)` from the source:
`k = ell / 2 / pi`; `Hankel.__init__(self, x=k, nu=nu, deriv=0, q=1)`;
`postfac *= 2 * pi`; `self.ell = ell`; `self.theta = self.y / 2 / pi`. -/
noncomputable def C2w.init {ι Config CallCfg : Type}
    (E : HankelEngine ι Config CallCfg) (ell : ι → ℝ) (nu : ℤ) (cfg : Config) :
    C2w ι Config :=
  let k := fun i => ell i / 2 / Real.pi
  let base := hankelInit E k nu 0 1 cfg
  { toHTransform :=
      { base with postfac := fun i => base.postfac i * ((2 * Real.pi : ℝ) : ℂ) }
    ell := ell
    theta := fun i => base.y i / 2 / Real.pi }

/-- `C2w.__call__(self, C, **kwargs)` from the source: delegates to the base
call with `F=C` and the keyword configuration unchanged, then rescales the
returned abscissa: `theta = r / 2 / pi`, returning `(theta, w)`. -/
noncomputable def C2w.call {ι Config CallCfg : Type}
    (E : HankelEngine ι Config CallCfg) (t : C2w ι Config) (C : ι → ℂ)
    (kw : CallCfg) : (ι → ℝ) × (ι → ℂ) :=
  let rw := E.call t.toHTransform C kw
  (fun i => rw.1 i / 2 / Real.pi, rw.2)

/-- A `w2C` instance: a 2D base transform plus stored `theta` and `ell`. -/
structure w2C (ι : Type) (Config : Type) extends HTransform ι Config where
  theta : ι → ℝ
  ell : ι → ℝ

/-- `w2C.__init__(self, theta, nu=0, **kwargs)` from the source:
`r = theta * 2 * pi`; `Hankel.__init__(self, x=r, nu=nu, deriv=0, q=1)`;
`postfac /= 2 * pi`; `self.theta = theta`; `self.ell = self.y * 2 * pi`. -/
noncomputable def w2C.init {ι Config CallCfg : Type}
    (E : HankelEngine ι Config CallCfg) (theta : ι → ℝ) (nu : ℤ) (cfg : Config) :
    w2C ι Config :=
  let r := fun i => theta i * 2 * Real.pi
  let base := hankelInit E r nu 0 1 cfg
  { toHTransform :=
      { base with postfac := fun i => base.postfac i / ((2 * Real.pi : ℝ) : ℂ) }
    theta := theta
    ell := fun i => base.y i * 2 * Real.pi }

/-- `w2C.__call__(self, w, **kwargs)` from the source: delegates to the base
call with `F=w` and the keyword configuration unchanged, then rescales the
returned abscissa: `ell = k * 2 * pi`, returning `(ell, C)`. -/
noncomputable def w2C.call {ι Config CallCfg : Type}
    (E : HankelEngine ι Config CallCfg) (t : w2C ι Config) (w : ι → ℂ)
    (kw : CallCfg) : (ι → ℝ) × (ι → ℂ) :=
  let kc := E.call t.toHTransform w kw
  (fun i => kc.1 i * 2 * Real.pi, kc.2)

/-- A concrete 2D engine on a one-point grid, used to instantiate the
abstract engine at concrete inputs: the conjugate grid is constantly `5`
and the initial correction factors are `1`. -/
def unitHankelEngine : HankelEngine Unit Unit Unit :=
  { y0 := fun _ _ _ _ _ _ => 5
    prefac0 := fun _ _ _ _ _ _ => 1
    postfac0 := fun _ _ _ _ _ _ => 1
    call := fun _ _ _ => (fun _ => 0, fun _ => 0) }

/-! ## Helper lemmas -/

/-- Reduce the source's bit test `l & 2` to a test on `l / 2 % 2`. -/
theorem land_two_eq (l : ℕ) : l &&& 2 = (Nat.testBit (l / 2) 0).toNat * 2 := by
  have h := Nat.and_two_pow l 1
  rw [pow_one] at h
  rw [h, Nat.testBit_add_one]

/-- The source's bitwise phase expression computes `i ^ l`. -/
theorem phaseOf_eq_I_pow (l : ℕ) : phaseOf l = Complex.I ^ l := by
  have hpow : Complex.I ^ l = Complex.I ^ (l % 4) := by
    conv_lhs => rw [show l = l % 4 + 4 * (l / 4) by omega]
    rw [pow_add, pow_mul, Complex.I_pow_four, one_pow, mul_one]
  have h1 : l &&& 1 = l % 2 := Nat.and_one_is_mod l
  have h2 : l &&& 2 = (Nat.testBit (l / 2) 0).toNat * 2 := land_two_eq l
  rw [Nat.testBit_zero] at h2
  have hm2 : l % 2 = l % 4 % 2 := by omega
  have hd2 : l / 2 % 2 = l % 4 / 2 := by omega
  rw [hpow, phaseOf, h1, h2, hm2]
  rcases (show l % 4 = 0 ∨ l % 4 = 1 ∨ l % 4 = 2 ∨ l % 4 = 3 by omega) with h | h | h | h
  all_goals rw [h, hd2, h]
  all_goals norm_num
  all_goals simp [pow_succ, Complex.I_mul_I]

/-- `i ^ l` is `1` exactly when `l` is a multiple of `4`. -/
theorem I_pow_eq_one_iff (l : ℕ) : Complex.I ^ l = 1 ↔ l % 4 = 0 := by
  have hpow : Complex.I ^ l = Complex.I ^ (l % 4) := by
    conv_lhs => rw [show l = l % 4 + 4 * (l / 4) by omega]
    rw [pow_add, pow_mul, Complex.I_pow_four, one_pow, mul_one]
  rw [hpow]
  rcases (show l % 4 = 0 ∨ l % 4 = 1 ∨ l % 4 = 2 ∨ l % 4 = 3 by omega) with h | h | h | h <;>
      rw [h] <;> norm_num <;> simp [pow_succ, Complex.I_mul_I, Complex.ext_iff]

/-! ## Claim theorems -/

/-- Claim C1: the module should expose six constructible transform types, with
every name the class statements reference — including the base class `Hankel`
of `C2w` and `w2C` — bound at module load.  The code violates this: running
the top-level statements of `cosmology.py` stops at the `class C2w(Hankel)`
statement with the unbound name `Hankel`, since only `mcfit`, `kernels` and
`pi` are ever imported. -/
theorem c2w_base_name_unbound :
    loadModule cosmologyStmts [] = Except.error PyName.Hankel := by
  rfl

/-- Claim C2: for every integer `l` in `{0,…,7}`, the phase factor
`(-1 if l & 2 else 1) * (1j if l & 1 else 1)` computed by `P2xi` (when `n`
is `None`) and by `xi2P` equals `i ^ l` and agrees with the modulo-4 case
table `l mod 4 ↦ {+1, +i, −1, −i}`. -/
theorem phase_factor_cycles (l : ℕ) (h : l < 8) :
    phaseOf l = phaseTableSpec l ∧ phaseOf l = Complex.I ^ l := by
  refine ⟨?_, phaseOf_eq_I_pow l⟩
  interval_cases l <;> simp +decide [phaseOf, phaseTableSpec]

/-- Witness for C2: the phase table holds at the concrete order `l = 6`. -/
theorem phase_factor_cycles_witness :
    6 < 8 ∧ (phaseOf 6 = phaseTableSpec 6 ∧ phaseOf 6 = Complex.I ^ 6) :=
  ⟨by norm_num, phase_factor_cycles 6 (by norm_num)⟩

/-- Claim C3: with a supplied integer `n`, `P2xi` passes tilt `q + n` to the
base transform, fixes the phase factor to `1` (so `postfac` is multiplied by
`1`), and multiplies `prefac` by `x^(3+n) / (2π)^1.5` relative to the base's
`prefac`; in particular `P2xi(k, l=2, n=1)` yields base tilt `q + 1`, phase
`1`, and `prefac` multiplied by `x^4 / (2π)^1.5`. -/
theorem p2xi_with_n_config (ι Config : Type) (E : McfitEngine ι Config) (k : ι → ℝ)
    (l : ℕ) (nv : ℤ) (deriv : ℕ) (q : ℝ) (cfg : Config) :
    (P2xi.init E k l (some nv) deriv q cfg).tilt = q + nv ∧
    (P2xi.init E k l (some nv) deriv q cfg).postfac
      = (fun i => (mcfitInit E k (Kernel.mellinSphericalBesselJ l deriv) (q + nv) cfg).postfac i
          * 1) ∧
    (P2xi.init E k l (some nv) deriv q cfg).prefac
      = (fun i => (mcfitInit E k (Kernel.mellinSphericalBesselJ l deriv) (q + nv) cfg).prefac i
          * ((k i ^ ((3 : ℤ) + nv) / twoPi15 : ℝ) : ℂ)) ∧
    (P2xi.init E k 2 (some 1) deriv q cfg).tilt = q + 1 ∧
    (P2xi.init E k 2 (some 1) deriv q cfg).postfac
      = (mcfitInit E k (Kernel.mellinSphericalBesselJ 2 deriv) (q + 1) cfg).postfac ∧
    (P2xi.init E k 2 (some 1) deriv q cfg).prefac
      = (fun i => (mcfitInit E k (Kernel.mellinSphericalBesselJ 2 deriv) (q + 1) cfg).prefac i
          * ((k i ^ (4 : ℕ) / twoPi15 : ℝ) : ℂ)) := by
  refine ⟨rfl, rfl, rfl, by simp [P2xi.init, mcfitInit], ?_, ?_⟩
  · funext i
    simp [P2xi.init, mcfitInit]
  · funext i
    simp [P2xi.init, mcfitInit]
    exact Or.inl rfl

/-- Claim C4: `xi2P` selects the spherical-Bessel-J kernel for `(l, deriv)`,
passes the tilt `q` to the base transform unmodified, multiplies `prefac` by
`x^3`, and multiplies `postfac` by `(2π)^1.5 / phase` with phase `i^l`. -/
theorem xi2p_config (ι Config : Type) (E : McfitEngine ι Config) (r : ι → ℝ)
    (l : ℕ) (deriv : ℕ) (q : ℝ) (cfg : Config) :
    (xi2P.init E r l deriv q cfg).kernel = Kernel.mellinSphericalBesselJ l deriv ∧
    (xi2P.init E r l deriv q cfg).tilt = q ∧
    (xi2P.init E r l deriv q cfg).prefac
      = (fun i => (mcfitInit E r (Kernel.mellinSphericalBesselJ l deriv) q cfg).prefac i
          * ((r i ^ (3 : ℕ) : ℝ) : ℂ)) ∧
    (xi2P.init E r l deriv q cfg).postfac
      = (fun i => (mcfitInit E r (Kernel.mellinSphericalBesselJ l deriv) q cfg).postfac i
          * (((twoPi15 : ℝ) : ℂ) / Complex.I ^ l)) := by
  refine ⟨rfl, rfl, rfl, ?_⟩
  funext i
  rw [xi2P.init]
  simp [phaseOf_eq_I_pow]

/-- Claim C8: `TophatVar` and `GaussVar` pass the tilt `q` to the base
transform unmodified and multiply `prefac` by exactly `x^3 / (2π²)`;
`TophatVar` selects the top-hat-squared kernel with fixed shape exponent `3`
and `GaussVar` the Gaussian-squared kernel, and neither modifies
`postfac`. -/
theorem variance_wrappers_config (ι Config : Type) (E : McfitEngine ι Config)
    (k : ι → ℝ) (deriv : ℕ) (q : ℝ) (cfg : Config) :
    (TophatVar.init E k deriv q cfg).kernel = Kernel.mellinTophatSq 3 deriv ∧
    (TophatVar.init E k deriv q cfg).tilt = q ∧
    (TophatVar.init E k deriv q cfg).prefac
      = (fun i => (mcfitInit E k (Kernel.mellinTophatSq 3 deriv) q cfg).prefac i
          * ((k i ^ (3 : ℕ) / (2 * Real.pi ^ 2) : ℝ) : ℂ)) ∧
    (TophatVar.init E k deriv q cfg).postfac
      = (mcfitInit E k (Kernel.mellinTophatSq 3 deriv) q cfg).postfac ∧
    (GaussVar.init E k deriv q cfg).kernel = Kernel.mellinGaussSq deriv ∧
    (GaussVar.init E k deriv q cfg).tilt = q ∧
    (GaussVar.init E k deriv q cfg).prefac
      = (fun i => (mcfitInit E k (Kernel.mellinGaussSq deriv) q cfg).prefac i
          * ((k i ^ (3 : ℕ) / (2 * Real.pi ^ 2) : ℝ) : ℂ)) ∧
    (GaussVar.init E k deriv q cfg).postfac
      = (mcfitInit E k (Kernel.mellinGaussSq deriv) q cfg).postfac :=
  ⟨rfl, rfl, rfl, rfl, rfl, rfl, rfl, rfl⟩

/-- Claim C5: `C2w` builds the 2D base transform on the internal grid
`k = ell/(2π)` with order `nu`, zero derivative, and tilt `q = 1`; it
multiplies `postfac` by `2π`, stores `ell` unchanged, and stores
`theta = y/(2π)` with `y` the base's conjugate grid; its call operator
forwards the keyword configuration unchanged to the base call and returns
`(r/(2π), w)` where `(r, w)` is the base call's result. -/
theorem c2w_config_and_call (ι Config CallCfg : Type)
    (E : HankelEngine ι Config CallCfg) (ell : ι → ℝ) (nu : ℤ) (cfg : Config)
    (C : ι → ℂ) (kw : CallCfg) :
    (C2w.init E ell nu cfg).x = (fun i => ell i / (2 * Real.pi)) ∧
    (C2w.init E ell nu cfg).nu = nu ∧
    (C2w.init E ell nu cfg).deriv = 0 ∧
    (C2w.init E ell nu cfg).tilt = 1 ∧
    (C2w.init E ell nu cfg).config = cfg ∧
    (C2w.init E ell nu cfg).postfac
      = (fun i => (hankelInit E (C2w.init E ell nu cfg).x nu 0 1 cfg).postfac i
          * ((2 * Real.pi : ℝ) : ℂ)) ∧
    (C2w.init E ell nu cfg).ell = ell ∧
    (C2w.init E ell nu cfg).theta
      = (fun i => (C2w.init E ell nu cfg).y i / (2 * Real.pi)) ∧
    C2w.call E (C2w.init E ell nu cfg) C kw
      = ((fun i => (E.call (C2w.init E ell nu cfg).toHTransform C kw).1 i / (2 * Real.pi)),
         (E.call (C2w.init E ell nu cfg).toHTransform C kw).2) := by
  refine ⟨?_, rfl, rfl, rfl, rfl, rfl, rfl, ?_, ?_⟩
  · funext i
    rw [C2w.init]
    simp [hankelInit, div_div]
  · funext i
    rw [C2w.init]
    simp [hankelInit, div_div]
  · rw [C2w.call]
    refine Prod.ext ?_ rfl
    funext i
    simp [div_div]

/-- Claim C6: `w2C` builds the 2D base transform on the internal grid
`r = theta·2π` with order `nu`, zero derivative, and tilt `q = 1`; it
divides `postfac` by `2π`, stores `theta` unchanged, and stores
`ell = y·2π` with `y` the base's conjugate grid; its call operator forwards
the keyword configuration unchanged to the base call and returns
`(k·2π, C)` where `(k, C)` is the base call's result. -/
theorem w2c_config_and_call (ι Config CallCfg : Type)
    (E : HankelEngine ι Config CallCfg) (theta : ι → ℝ) (nu : ℤ) (cfg : Config)
    (w : ι → ℂ) (kw : CallCfg) :
    (w2C.init E theta nu cfg).x = (fun i => theta i * (2 * Real.pi)) ∧
    (w2C.init E theta nu cfg).nu = nu ∧
    (w2C.init E theta nu cfg).deriv = 0 ∧
    (w2C.init E theta nu cfg).tilt = 1 ∧
    (w2C.init E theta nu cfg).config = cfg ∧
    (w2C.init E theta nu cfg).postfac
      = (fun i => (hankelInit E (w2C.init E theta nu cfg).x nu 0 1 cfg).postfac i
          / ((2 * Real.pi : ℝ) : ℂ)) ∧
    (w2C.init E theta nu cfg).theta = theta ∧
    (w2C.init E theta nu cfg).ell
      = (fun i => (w2C.init E theta nu cfg).y i * (2 * Real.pi)) ∧
    w2C.call E (w2C.init E theta nu cfg) w kw
      = ((fun i => (E.call (w2C.init E theta nu cfg).toHTransform w kw).1 i * (2 * Real.pi)),
         (E.call (w2C.init E theta nu cfg).toHTransform w kw).2) := by
  refine ⟨?_, rfl, rfl, rfl, rfl, rfl, rfl, ?_, ?_⟩
  · funext i
    rw [w2C.init]
    simp [hankelInit, mul_assoc]
  · funext i
    rw [w2C.init]
    simp [hankelInit, mul_assoc]
  · rw [w2C.call]
    refine Prod.ext ?_ rfl
    funext i
    simp [mul_assoc]

/-- Counterexample to claim C7: on a one-point grid with the concrete engine
`unitHankelEngine` (conjugate grid constantly `5`) and input grid constantly
`1`, the `C2w` instance has `ell = 1` but `2π·theta = 5`, so the claimed
pointwise identity `ell == 2π·theta` fails at construction time. -/
theorem ell_ne_two_pi_theta_cex :
    (C2w.init unitHankelEngine (fun _ => 1) 0 ()).ell ()
      ≠ 2 * Real.pi * (C2w.init unitHankelEngine (fun _ => 1) 0 ()).theta () := by
  rw [C2w.init]
  simp [hankelInit, unitHankelEngine, div_div]
  intro h
  have hπ : (2 * Real.pi) ≠ 0 := by positivity
  rw [← mul_div_assoc, mul_comm (2 * Real.pi) 5, mul_div_assoc, div_self hπ, mul_one] at h
  norm_num at h

/-- Claim C7 amended: the `2π` relation ties each stored attribute to the
corresponding base grid, not `ell` to `theta` directly: every `C2w` instance
satisfies `ell == 2π·x` and `theta == y/(2π)`, and every `w2C` instance
satisfies `theta == x/(2π)` and `ell == 2π·y`, pointwise at construction
time. -/
theorem ell_theta_grid_relation (ι Config CallCfg : Type)
    (E : HankelEngine ι Config CallCfg) (g : ι → ℝ) (nu : ℤ) (cfg : Config) :
    ((C2w.init E g nu cfg).ell
      = fun i => 2 * Real.pi * (C2w.init E g nu cfg).x i) ∧
    ((C2w.init E g nu cfg).theta
      = fun i => (C2w.init E g nu cfg).y i / (2 * Real.pi)) ∧
    ((w2C.init E g nu cfg).theta
      = fun i => (w2C.init E g nu cfg).x i / (2 * Real.pi)) ∧
    ((w2C.init E g nu cfg).ell
      = fun i => 2 * Real.pi * (w2C.init E g nu cfg).y i) := by
  have hπ : (2 * Real.pi) ≠ 0 := by positivity
  refine ⟨?_, ?_, ?_, ?_⟩
  · funext i
    rw [C2w.init]
    simp [hankelInit, div_div]
    rw [mul_div_cancel₀ _ hπ]
  · funext i
    rw [C2w.init]
    simp [hankelInit, div_div]
  · funext i
    rw [w2C.init]
    simp [hankelInit, mul_assoc]
    rw [mul_div_cancel_right₀ _ hπ]
  · funext i
    rw [w2C.init]
    simp [hankelInit, mul_assoc]
    ring

/-- Claim C10: constructing `P2xi` with `n = 0` supplied and with `n`
omitted produces configurations agreeing in every component except the
`postfac` factor: the omitted-`n` construction multiplies `postfac` by the
extra factor `i^l`, which equals `1` exactly when `l mod 4 = 0` (so the two
configurations coincide then, and differ exactly in the `postfac` factor
`i^l` versus `1` otherwise). -/
theorem p2xi_n0_vs_none (ι Config : Type) (E : McfitEngine ι Config) (k : ι → ℝ)
    (deriv : ℕ) (q : ℝ) (cfg : Config) (l : ℕ) :
    (P2xi.init E k l none deriv q cfg).x = (P2xi.init E k l (some 0) deriv q cfg).x ∧
    (P2xi.init E k l none deriv q cfg).y = (P2xi.init E k l (some 0) deriv q cfg).y ∧
    (P2xi.init E k l none deriv q cfg).kernel
      = (P2xi.init E k l (some 0) deriv q cfg).kernel ∧
    (P2xi.init E k l none deriv q cfg).tilt = (P2xi.init E k l (some 0) deriv q cfg).tilt ∧
    (P2xi.init E k l none deriv q cfg).config
      = (P2xi.init E k l (some 0) deriv q cfg).config ∧
    (P2xi.init E k l none deriv q cfg).l = (P2xi.init E k l (some 0) deriv q cfg).l ∧
    (P2xi.init E k l none deriv q cfg).prefac
      = (P2xi.init E k l (some 0) deriv q cfg).prefac ∧
    (P2xi.init E k l none deriv q cfg).postfac
      = (fun i => (P2xi.init E k l (some 0) deriv q cfg).postfac i * Complex.I ^ l) ∧
    (Complex.I ^ l = 1 ↔ l % 4 = 0) := by
  refine ⟨rfl, rfl, rfl, rfl, rfl, rfl, rfl, ?_, I_pow_eq_one_iff l⟩
  funext i
  rw [P2xi.init, P2xi.init]
  simp [mcfitInit, phaseOf_eq_I_pow]

end McfitCosmo
